import Mathlib

/-
Shallow embedding of the kicad-parts-database repository.

Part A models src/src/api/v1/main.py: the dynamic Python values stored in
the JSONB fields column, the fixed field catalog, the helper to_bool_str,
the export function part_to_kicad_fields, and the category listing
endpoint parts_for_category.

Part B models src/kicad_parts_database/kicad_db/db_definitions.py: the
KiCadField / KiCadProperty / Column specs, table definitions, the
schema-synthesis function generate_table_columns (the source method
_generate_table_columns), the default identity columns, the computed
expression substitution performed with str.format, and table registration.
-/

/-! ### Python value model -/

/-- A dynamic Python value as it can appear in the JSONB fields column of a
part (the source annotates the column as Dict[str, str | dict], and the
code probes values with isinstance). -/
inductive PyVal where
  | str (s : String)
  | int (n : Int)
  | bool (b : Bool)
  | pynone
  | dict (entries : List (String × PyVal))

/-- The quote character used by the Python repr of strings. -/
def pyQuoteChar : Char := Char.ofNat 39

mutual
/-- Python repr of a value (used by str on containers). -/
def pyRepr : PyVal → String
  | .str s => String.singleton pyQuoteChar ++ s ++ String.singleton pyQuoteChar
  | .int n => toString n
  | .bool b => cond b "True" "False"
  | .pynone => "None"
  | .dict es => "\x7b" ++ pyReprEntries es ++ "\x7d"

/-- Python repr of dict entries, comma separated. -/
def pyReprEntries : List (String × PyVal) → String
  | [] => ""
  | [(k, v)] =>
    String.singleton pyQuoteChar ++ k ++ String.singleton pyQuoteChar ++ ": " ++ pyRepr v
  | (k, v) :: e :: rest =>
    String.singleton pyQuoteChar ++ k ++ String.singleton pyQuoteChar ++ ": " ++ pyRepr v
      ++ ", " ++ pyReprEntries (e :: rest)
end

/-- Python str applied to a dynamic value: identity on strings, repr-like
rendering on everything else (str(True) is True, str(5) is 5, str(None) is
None). -/
def pyStr : PyVal → String
  | .str s => s
  | v => pyRepr v

/-- ASCII lowercase of one character, as Python str.lower acts on the
ASCII range used by the field names of this code base. -/
def pyLowerChar (c : Char) : Char :=
  if 65 ≤ c.toNat ∧ c.toNat ≤ 90 then Char.ofNat (c.toNat + 32) else c

/-- Python str.lower restricted to ASCII input. -/
def pyLower (s : String) : String := String.mk (s.data.map pyLowerChar)

/-- Insert into a Python dict modelled as an association list: an existing
key keeps its position and gets the new value, a new key is appended. -/
def dictInsert {β : Type} (k : String) (v : β) : List (String × β) → List (String × β)
  | [] => [(k, v)]
  | (k0, v0) :: rest => if k0 = k then (k, v) :: rest else (k0, v0) :: dictInsert k v rest

/-! ### Part A: src/src/api/v1/main.py -/

/-- Dataclass CommonFieldSpec: info about fields KiCad always wants,
including the default visibility. -/
structure CommonFieldSpec where
  name : String
  visible : Bool := false
deriving DecidableEq

/-- The module level FIXED_FIELDS list. -/
def FIXED_FIELDS : List CommonFieldSpec :=
  [⟨"footprint", false⟩, ⟨"datasheet", false⟩, ⟨"value", true⟩,
   ⟨"reference", true⟩, ⟨"description", false⟩, ⟨"keywords", false⟩]

/-- The module level FIXED_FIELD_NAMES is a generator expression, not a
list: it is consumed by membership tests. We model the generator as the
list of elements it has not yet yielded; this constant is its initial
state, at module import time. -/
def FIXED_FIELD_NAMES : List String := FIXED_FIELDS.map (fun f => pyLower f.name)

/-- Membership test against a generator: the generator yields elements
until a match is found (returning the remaining suffix) or until it is
exhausted (leaving it empty). Returns the test result and the new
generator state. -/
def genContains (x : String) : List String → Bool × List String
  | [] => (false, [])
  | a :: rest => if a = x then (true, rest) else genContains x rest

/-- The row type of the parts table (class Part of
src/src/definitions/parts.py), restricted to the columns the API reads.
Optional columns are Option; the JSONB fields column is Option because a
database row can hold NULL there. -/
structure PartRecord where
  sequence_number : Nat
  name : String
  category_id : Nat
  value : String
  reference : String
  footprint : String
  symbol_id : String
  description : Option String
  datasheet : Option String
  keywords : Option String
  fields : Option (List (String × PyVal))
  exclude_from_bom : Bool
  exclude_from_board : Bool
  exclude_from_sim : Bool
  is_active : Bool

/-- The inner helper to_bool_str of part_to_kicad_fields: a lowercased
string in the set 1, true, yes, y maps to True; otherwise booleans and
integers go through str; everything else maps to False. -/
def to_bool_str : PyVal → String
  | .str s => if pyLower s ∈ ["1", "true", "yes", "y"] then "True" else "False"
  | .bool b => cond b "True" "False"
  | .int n => toString n
  | .pynone => "False"
  | .dict _ => "False"

/-- One entry of the exported fields map: a value and a visibility string. -/
structure FieldEntry where
  value : String
  visible : String
deriving DecidableEq

/-- The full payload part_to_kicad_fields returns. -/
structure KiCadPartPayload where
  id : String
  name : String
  symbolIdStr : String
  exclude_from_bom : String
  exclude_from_board : String
  exclude_from_sim : String
  fields : List (String × FieldEntry)
deriving DecidableEq

/-- getattr(part, name, empty string) for the six fixed field names, with
Option.none standing for the Python None held by optional columns. -/
def getFixedAttr (p : PartRecord) : String → Option String
  | "footprint" => some p.footprint
  | "datasheet" => p.datasheet
  | "value" => some p.value
  | "reference" => some p.reference
  | "description" => p.description
  | "keywords" => p.keywords
  | _ => some ""

/-- The expression: empty string if val is None else str(val). -/
def noneToEmptyStr : Option String → String
  | Option.none => ""
  | some s => s

/-- Step writing the fixed catalog into the fields dict: for every
FIXED_FIELDS item, fields[item.name] gets the attribute value (None
becomes the empty string) and the visibility through to_bool_str. -/
def fixedFieldsMap (p : PartRecord) : List (String × FieldEntry) :=
  FIXED_FIELDS.foldl
    (fun acc item =>
      dictInsert item.name
        ⟨noneToEmptyStr (getFixedAttr p item.name), to_bool_str (.bool item.visible)⟩ acc)
    []

/-- The expression: empty string if v is None else str(v), for a dynamic
value. -/
def noneToEmptyVal : PyVal → String
  | .pynone => ""
  | v => pyStr v

/-- v.get(key, default) on a dict value modelled as an association list. -/
def dictGetD (es : List (String × PyVal)) (key : String) (dflt : PyVal) : PyVal :=
  match es.lookup key with
  | some w => w
  | Option.none => dflt

/-- The loop over part.fields items. The first component of the result is
the updated fields dict, the second the generator state left behind by the
membership tests against FIXED_FIELD_NAMES. A dict value with a value key
is normalized through to_bool_str (the local variable named visibility in
the source is assigned but never read, so it is not modelled); a plain
string value is wrapped with visibility False; any other value is dropped. -/
def processExtras :
    List String → List (String × FieldEntry) → List (String × PyVal) →
      List (String × FieldEntry) × List String
  | gen, fields, [] => (fields, gen)
  | gen, fields, (k, v) :: rest =>
    if (genContains (pyLower k) gen).1 then
      processExtras (genContains (pyLower k) gen).2 fields rest
    else
      match v with
      | .dict es =>
        if (es.lookup "value").isSome then
          processExtras (genContains (pyLower k) gen).2
            (dictInsert k
              ⟨noneToEmptyVal (dictGetD es "value" .pynone),
               to_bool_str (dictGetD es "visible" (.bool false))⟩ fields)
            rest
        else processExtras (genContains (pyLower k) gen).2 fields rest
      | .str s =>
        processExtras (genContains (pyLower k) gen).2 (dictInsert k ⟨s, "False"⟩ fields) rest
      | _ => processExtras (genContains (pyLower k) gen).2 fields rest

/-- part_to_kicad_fields. The generator state of FIXED_FIELD_NAMES is an
explicit argument and result because the source reads a module level
generator that persists across calls. -/
def part_to_kicad_fields (gen : List String) (part : PartRecord) :
    KiCadPartPayload × List String :=
  let fields0 := fixedFieldsMap part
  let pe := processExtras gen fields0 (part.fields.getD [])
  ({ id := toString part.sequence_number,
     name := if part.name = "" then toString part.sequence_number else part.name,
     symbolIdStr := part.symbol_id,
     exclude_from_bom := to_bool_str (.bool part.exclude_from_bom),
     exclude_from_board := to_bool_str (.bool part.exclude_from_board),
     exclude_from_sim := to_bool_str (.bool part.exclude_from_sim),
     fields := pe.1 }, pe.2)

/-! Sorting by a string key (used both for the SQL order-by on the part
name and for the sorted attribute enumeration performed by dir). -/

/-- Lexicographic comparison of character lists by code point. -/
def charsLe : List Char → List Char → Bool
  | [], _ => true
  | _ :: _, [] => false
  | a :: as, b :: bs =>
    if a.toNat < b.toNat then true
    else if a.toNat = b.toNat then charsLe as bs
    else false

/-- Lexicographic string comparison by code point, the order both Python
sorted and the SQL order-by produce on ASCII names. -/
def strLeB (a b : String) : Bool := charsLe a.data b.data

/-- Insertion step of insertion sort by a string key. -/
def insertLeBy {α : Type} (key : α → String) (x : α) : List α → List α
  | [] => [x]
  | y :: ys => if strLeB (key x) (key y) then x :: y :: ys else y :: insertLeBy key x ys

/-- Insertion sort by a string key, ascending. -/
def sortLeBy {α : Type} (key : α → String) : List α → List α
  | [] => []
  | x :: xs => insertLeBy key x (sortLeBy key xs)

/-- The name slot of a parts_for_category entry: the source expression
r[1] or r[0] yields the name string when it is nonempty and otherwise the
raw integer sequence number, so the slot holds either a JSON string or a
JSON number. -/
inductive JsonName where
  | str (s : String)
  | int (n : Nat)
deriving DecidableEq

/-- One element of the parts_for_category response. -/
structure PartListEntry where
  id : String
  name : JsonName
  description : String
deriving DecidableEq

/-- parts_for_category: select sequence_number, name, description of the
rows whose category_id matches, ordered by name; the where clause of the
source has no condition on is_active. -/
def parts_for_category (db : List PartRecord) (cid : Nat) : List PartListEntry :=
  (sortLeBy PartRecord.name (db.filter (fun p => p.category_id = cid))).map
    (fun r =>
      { id := toString r.sequence_number,
        name := if r.name = "" then .int r.sequence_number else .str r.name,
        description := r.description.getD "" })

/-! ### Part B: src/kicad_parts_database/kicad_db/db_definitions.py -/

/-- The SQLAlchemy column types this module instantiates. -/
inductive ColType where
  | string
  | boolean
deriving DecidableEq

/-- A SQLAlchemy Column, restricted to the keyword arguments this module
reads or writes (the source copies foreign keys, autoincrement, default
and info as well; they are opaque to every claim and are elided). -/
structure SAColumn where
  name : String
  type : ColType
  primary_key : Bool := false
  nullable : Bool := true
  server_default : Option String := Option.none
  unique : Bool := false
  index : Bool := false
  comment : String := ""
deriving DecidableEq

/-- The function _copy_column_with_new_name: all column properties are
copied, only the name is overridden. -/
def copy_column_with_new_name (column : SAColumn) (new_name : String) : SAColumn :=
  { column with name := new_name }

/-- The other_column_options dict of a KiCadField, restricted to the one
key the synthesis path writes (server_default); synthesis passes the dict
through to the Column constructor unchanged otherwise. -/
structure ColumnOptions where
  server_default : Option String := Option.none
deriving DecidableEq

/-- Dataclass KiCadField of db_definitions. -/
structure KiCadField where
  name : String
  visible_on_add : Bool := false
  visible_in_chooser : Bool := false
  show_name : Bool := false
  inherit_properties : Bool := false
  description : String := ""
  computed : String := ""
  other_column_options : ColumnOptions := {}
deriving DecidableEq

/-- Enum KiCadPropertySpec. -/
inductive KiCadPropertySpec where
  | FOOTPRINT_FILTERS
  | VALUE
  | DATASHEET
  | KEYWORDS
  | DESCRIPTION
  | EXCLUDE_FROM_BOM
  | EXCLUDE_FROM_BOARD
  | EXCLUDE_FROM_SIM
deriving DecidableEq

/-- Dataclass KiCadProperty. -/
structure KiCadProperty where
  which : KiCadPropertySpec
  description : String := ""
deriving DecidableEq

/-- The union type KiCadDatabaseColumn = Column | KiCadField | KiCadProperty. -/
inductive KiCadDatabaseColumn where
  | column (c : SAColumn)
  | field (f : KiCadField)
  | property (p : KiCadProperty)
deriving DecidableEq

/-- A subclass of KiCadTableDefinition: the configured identity column
names, the computed variable bindings (values already rendered to the
strings str.format would substitute), the table name, and the class
attributes holding KiCadDatabaseColumn values. -/
structure KiCadTableDefinition where
  key_column_name : String := "key"
  symbol_column_name : String := "symbol"
  footprint_column_name : String := "footprint"
  computed_vars : List (String × String) := []
  table_name : String := ""
  attrs : List (String × KiCadDatabaseColumn) := []
deriving DecidableEq

/-- get_kicad_fields: the source enumerates attribute names with dir,
which returns them sorted ascending, and keeps those holding a
KiCadDatabaseColumn; the resulting dict therefore iterates in sorted
attribute-name order, not declaration order. -/
def get_kicad_fields (cls : KiCadTableDefinition) : List (String × KiCadDatabaseColumn) :=
  sortLeBy Prod.fst cls.attrs

/-- _default_columns: the key, symbol and footprint columns are added for
the configured names not already used by a declared attribute; only the
key column carries primary_key (SQLAlchemy makes a primary key column not
nullable). -/
def default_columns (cls : KiCadTableDefinition)
    (fields : List (String × KiCadDatabaseColumn)) : List SAColumn :=
  ([(cls.key_column_name, "Unique key for the part", true),
    (cls.symbol_column_name, "KiCad symbol reference", false),
    (cls.footprint_column_name, "KiCad footprint reference", false)].filter
      (fun d => ¬ (d.1 ∈ fields.map Prod.fst))).map
    (fun d =>
      { name := d.1, type := ColType.string, primary_key := d.2.2,
        nullable := ¬ d.2.2, comment := d.2.1 })

/-! The computed expression substitution: field.computed.format(**vars).
Python str.format is modelled as a character level state machine: a double
open or close brace is an escaped literal brace, a single open brace opens
a field name that runs to the next close brace, a lone close brace is a
format error. A field name missing from the bindings raises a KeyError
carrying that name; the machine returns the name as the error value. -/

/-- The open brace character. -/
def braceOpen : Char := Char.ofNat 123

/-- The close brace character. -/
def braceClose : Char := Char.ofNat 125

/-- Scanner state: in plain text, just after one open brace, just after
one close brace, or inside a field name. -/
inductive FmtState where
  | normal
  | openSeen
  | closeSeen
  | inVar (acc : List Char)
deriving DecidableEq

/-- The format machine. Substitutes bound variables, errors with the
variable name on an unbound one, errors on a malformed brace structure. -/
def fmtRun (vars : List (String × String)) :
    FmtState → String → List Char → Except String String
  | .normal, out, [] => .ok out
  | .normal, out, c :: cs =>
    if c = braceOpen then fmtRun vars .openSeen out cs
    else if c = braceClose then fmtRun vars .closeSeen out cs
    else fmtRun vars .normal (out.push c) cs
  | .openSeen, _, [] => .error "single open brace at end of format string"
  | .openSeen, out, c :: cs =>
    if c = braceOpen then fmtRun vars .normal (out.push braceOpen) cs
    else if c = braceClose then
      match vars.lookup "" with
      | some v => fmtRun vars .normal (out ++ v) cs
      | Option.none => .error ""
    else fmtRun vars (.inVar [c]) out cs
  | .closeSeen, _, [] => .error "single close brace at end of format string"
  | .closeSeen, out, c :: cs =>
    if c = braceClose then fmtRun vars .normal (out.push braceClose) cs
    else .error "single close brace in format string"
  | .inVar _, _, [] => .error "expected close brace before end of format string"
  | .inVar nm, out, c :: cs =>
    if c = braceClose then
      match vars.lookup (String.mk nm) with
      | some v => fmtRun vars .normal (out ++ v) cs
      | Option.none => .error (String.mk nm)
    else if c = braceOpen then .error "unexpected open brace in field name"
    else fmtRun vars (.inVar (nm ++ [c])) out cs

/-- field.computed.format(**cls._get_computed_vars()). -/
def pyFormat (vars : List (String × String)) (s : String) : Except String String :=
  fmtRun vars .normal "" s.data

/-- The referenced variable names of a format string, in order, or
Option.none when the brace structure is malformed. Mirrors the state
machine of fmtRun without looking at any bindings. -/
def fmtVarsRun : FmtState → List String → List Char → Option (List String)
  | .normal, acc, [] => some acc
  | .normal, acc, c :: cs =>
    if c = braceOpen then fmtVarsRun .openSeen acc cs
    else if c = braceClose then fmtVarsRun .closeSeen acc cs
    else fmtVarsRun .normal acc cs
  | .openSeen, _, [] => Option.none
  | .openSeen, acc, c :: cs =>
    if c = braceOpen then fmtVarsRun .normal acc cs
    else if c = braceClose then fmtVarsRun .normal (acc ++ [""]) cs
    else fmtVarsRun (.inVar [c]) acc cs
  | .closeSeen, _, [] => Option.none
  | .closeSeen, acc, c :: cs =>
    if c = braceClose then fmtVarsRun .normal acc cs else Option.none
  | .inVar _, _, [] => Option.none
  | .inVar nm, acc, c :: cs =>
    if c = braceClose then fmtVarsRun .normal (acc ++ [String.mk nm]) cs
    else if c = braceOpen then Option.none
    else fmtVarsRun (.inVar (nm ++ [c])) acc cs

/-- The referenced variables of a format string from the initial state. -/
def fmtVars (s : String) : Option (List String) := fmtVarsRun .normal [] s.data

/-- The body of the loop of _generate_table_columns for one attribute. A
KiCadField with an empty name raises a ValueError; otherwise it yields a
String column named after the attribute, with the field description as
comment and, when a computed expression is present, its substitution
installed under the server_default key of the options. A KiCadProperty
yields a Boolean column for the three exclusion kinds and a String column
otherwise. A plain Column is copied under the attribute name. -/
def column_from_spec (cls : KiCadTableDefinition) (name : String) :
    KiCadDatabaseColumn → Except String SAColumn
  | .field f =>
    if f.name = "" then
      .error ("Field " ++ name ++ " has no name defined. Please define the name of the field in the KiCadField definition.")
    else if f.computed = "" then
      .ok { name := name, type := ColType.string, comment := f.description,
            server_default := f.other_column_options.server_default }
    else
      match pyFormat cls.computed_vars f.computed with
      | .error e => .error e
      | .ok s =>
        .ok { name := name, type := ColType.string, comment := f.description,
              server_default := some s }
  | .property p =>
    if p.which = .EXCLUDE_FROM_BOM ∨ p.which = .EXCLUDE_FROM_BOARD
        ∨ p.which = .EXCLUDE_FROM_SIM then
      .ok { name := name, type := ColType.boolean, comment := p.description }
    else
      .ok { name := name, type := ColType.string, comment := p.description }
  | .column c => .ok (copy_column_with_new_name c name)

/-- The loop of _generate_table_columns over the fields dict, appending
one column per attribute; the first raised error aborts the loop. -/
def gen_field_columns (cls : KiCadTableDefinition) :
    List (String × KiCadDatabaseColumn) → Except String (List SAColumn)
  | [] => .ok []
  | (n, spec) :: rest =>
    match column_from_spec cls n spec with
    | .error e => .error e
    | .ok c =>
      match gen_field_columns cls rest with
      | .error e => .error e
      | .ok cs => .ok (c :: cs)

/-- _generate_table_columns: the default identity columns followed by one
column per declared attribute in the iteration order of the fields dict. -/
def generate_table_columns (cls : KiCadTableDefinition) : Except String (List SAColumn) :=
  let fields := get_kicad_fields cls
  match gen_field_columns cls fields with
  | .error e => .error e
  | .ok cols => .ok (default_columns cls fields ++ cols)

/-- _register_table: the class is appended to the registry only when it is
not yet present. -/
def register_table (cls : KiCadTableDefinition)
    (registered : List KiCadTableDefinition) : List KiCadTableDefinition :=
  if cls ∈ registered then registered else registered ++ [cls]

/-! ### Claims -/

/-- A part whose extra fields first hold a non colliding name and then the
reserved name footprint. -/
def c1_part : PartRecord :=
  { sequence_number := 1, name := "R1", category_id := 1, value := "10k",
    reference := "R?", footprint := "GOOD", symbol_id := "Device:R",
    description := Option.none, datasheet := Option.none, keywords := some "",
    fields := some [("Manufacturer", PyVal.str "Murata"), ("footprint", PyVal.str "EVIL")],
    exclude_from_bom := false, exclude_from_board := false,
    exclude_from_sim := false, is_active := true }

/-- C1: the claim states that a dynamic entry whose name collides with a
fixed catalog name is always dropped. It is not: the membership tests run
against the module level generator FIXED_FIELD_NAMES, and the very first
test for a non colliding name exhausts it, so the subsequent test for the
reserved name footprint finds nothing and the dynamic value overwrites the
fixed entry written in step 2. Starting from the initial generator state,
the export of c1_part serves footprint as the dynamic value EVIL although
the fixed catalog wrote GOOD. -/
theorem c1_dynamic_override_of_fixed_field :
    ((part_to_kicad_fields FIXED_FIELD_NAMES c1_part).1.fields).lookup "footprint"
        = some ⟨"EVIL", "False"⟩
    ∧ (fixedFieldsMap c1_part).lookup "footprint" = some ⟨"GOOD", "False"⟩
    ∧ (part_to_kicad_fields FIXED_FIELD_NAMES c1_part).2 = [] := by
  exact ⟨by decide, by decide, by decide⟩

/-- C2 counterexample: to_bool_str on the integer 2 returns the decimal
string 2, which is neither True nor False, so the output is not always one
of the two boolean literals. -/
theorem c2_to_bool_str_not_boolean_on_int :
    to_bool_str (PyVal.int 2) = "2"
    ∧ ¬ (to_bool_str (PyVal.int 2) = "True" ∨ to_bool_str (PyVal.int 2) = "False") := by
  exact ⟨by decide, by decide⟩

/-- C2 (amended): to_bool_str is total over every dynamic value shape
(string, boolean, integer, None, mapping) and its result is exactly True
or exactly False, except on a non boolean integer, where it is the decimal
string of that integer. -/
theorem c2_to_bool_str_total_range :
    ∀ v : PyVal,
      to_bool_str v = "True" ∨ to_bool_str v = "False"
        ∨ ∃ n : Int, v = PyVal.int n ∧ to_bool_str v = toString n := by
  intro v
  cases v with
  | str s =>
    by_cases h : pyLower s ∈ ["1", "true", "yes", "y"]
    · exact Or.inl (by simp [to_bool_str, h])
    · exact Or.inr (Or.inl (by simp [to_bool_str, h]))
  | int n => exact Or.inr (Or.inr ⟨n, rfl, rfl⟩)
  | bool b => cases b
              · exact Or.inr (Or.inl rfl)
              · exact Or.inl rfl
  | pynone => exact Or.inr (Or.inl rfl)
  | dict es => exact Or.inr (Or.inl rfl)

/-- C3 counterexample: on the integer 1 the function returns the string 1,
not True, and on the integer 0 it returns the string 0, not False. -/
theorem c3_to_bool_str_int_literals :
    to_bool_str (PyVal.int 1) = "1" ∧ ¬ to_bool_str (PyVal.int 1) = "True"
    ∧ to_bool_str (PyVal.int 0) = "0" ∧ ¬ to_bool_str (PyVal.int 0) = "False" := by
  exact ⟨by decide, by decide, by decide, by decide⟩

/-- C3 (amended): to_bool_str returns True on the string YES, False on the
string no, the decimal string 1 on the integer 1, the decimal string 0 on
the integer 0, and False on None. -/
theorem c3_to_bool_str_examples :
    to_bool_str (PyVal.str "YES") = "True"
    ∧ to_bool_str (PyVal.str "no") = "False"
    ∧ to_bool_str (PyVal.int 1) = "1"
    ∧ to_bool_str (PyVal.int 0) = "0"
    ∧ to_bool_str PyVal.pynone = "False" := by
  exact ⟨by decide, by decide, by decide, by decide, by decide⟩

/-- An active part of category 1. -/
def c8_part_active : PartRecord :=
  { sequence_number := 3, name := "Amplifier", category_id := 1, value := "LM358",
    reference := "U?", footprint := "SOIC-8", symbol_id := "Amplifier_Operational:LM358",
    description := some "An amp", datasheet := Option.none, keywords := some "",
    fields := some [], exclude_from_bom := false, exclude_from_board := false,
    exclude_from_sim := false, is_active := true }

/-- A soft deleted part of category 1 with an empty name and no
description. -/
def c8_part_inactive : PartRecord :=
  { c8_part_active with
    sequence_number := 7
    name := ""
    description := Option.none
    is_active := false }

/-- C8: the claim states that the category listing holds one entry per
active part, with a missing name rendered as the numeric id string. The
query of parts_for_category carries no condition on is_active although its
docstring promises active parts only, so the soft deleted part with
sequence number 7 is listed; moreover its empty name falls back to the raw
integer 7, not the string 7, because the fallback expression does not
stringify the id. -/
theorem c8_inactive_part_listed_with_integer_name :
    parts_for_category [c8_part_active, c8_part_inactive] 1
        = [⟨"7", JsonName.int 7, ""⟩, ⟨"3", JsonName.str "Amplifier", "An amp"⟩]
    ∧ c8_part_inactive.is_active = false := by
  exact ⟨by decide, by decide⟩

/-- C9: registration is idempotent: registering a definition already
present in the registry is a no-op, nesting a registration inside another
of the same definition changes nothing, and registering a new definition
appends it once at the end. -/
theorem c9_register_table_idempotent
    (cls : KiCadTableDefinition) (reg : List KiCadTableDefinition) :
    register_table cls (register_table cls reg) = register_table cls reg
    ∧ (cls ∈ reg → register_table cls reg = reg)
    ∧ (cls ∉ reg → register_table cls reg = reg ++ [cls]) := by
  refine ⟨?_, fun h => by simp [register_table, h], fun h => by simp [register_table, h]⟩
  by_cases h : cls ∈ reg
  · simp [register_table, h]
  · simp [register_table, h]

/-- A concrete table definition for the registration witness. -/
def c9_table : KiCadTableDefinition := { table_name := "resistors" }

/-- Witness for C9 at a concrete definition and registry. -/
theorem c9_register_table_idempotent_witness :
    register_table c9_table (register_table c9_table [])
        = register_table c9_table []
    ∧ register_table c9_table [] = [] ++ [c9_table]
    ∧ register_table c9_table [c9_table] = [c9_table] :=
  ⟨(c9_register_table_idempotent c9_table []).1,
   (c9_register_table_idempotent c9_table []).2.2 (by simp),
   (c9_register_table_idempotent c9_table [c9_table]).2.1 (by simp)⟩

/-- C10: exporting a record whose fields column is NULL yields exactly the
same payload and generator state as exporting it with an empty mapping,
and the resulting fields map is exactly the fixed catalog written in step
2: its keys are precisely the six fixed names, in catalog order, with no
dynamic entry. -/
theorem c10_null_fields_same_as_empty
    (gen : List String) (p : PartRecord) :
    part_to_kicad_fields gen { p with fields := Option.none }
        = part_to_kicad_fields gen { p with fields := some [] }
    ∧ (part_to_kicad_fields gen { p with fields := Option.none }).1.fields
        = fixedFieldsMap p
    ∧ ((part_to_kicad_fields gen { p with fields := Option.none }).1.fields).map Prod.fst
        = FIXED_FIELDS.map CommonFieldSpec.name := by
  exact ⟨rfl, rfl, rfl⟩

/-! Dict and generator lemmas used by the claims about the export merger. -/

theorem genContains_subset (x : String) (gen : List String) :
    ∀ y ∈ (genContains x gen).2, y ∈ gen := by
  induction gen with
  | nil => simp [genContains]
  | cons a rest ih =>
    intro y hy
    by_cases h : a = x
    · simp only [genContains, h, if_true] at hy
      exact List.mem_cons_of_mem _ hy
    · simp only [genContains, h, if_false] at hy
      exact List.mem_cons_of_mem _ (ih y hy)

theorem genContains_not_mem {x : String} {gen : List String} (h : x ∉ gen) :
    genContains x gen = (false, []) := by
  induction gen with
  | nil => rfl
  | cons a rest ih =>
    have ha : a ≠ x := fun e => h (e ▸ List.mem_cons_self a rest)
    have hr : x ∉ rest := fun e => h (List.mem_cons_of_mem a e)
    simp [genContains, ha, ih hr]

theorem lookup_dictInsert_self {β : Type} (k : String) (v : β) (l : List (String × β)) :
    (dictInsert k v l).lookup k = some v := by
  induction l with
  | nil => simp [dictInsert, List.lookup]
  | cons p rest ih =>
    obtain ⟨k0, v0⟩ := p
    by_cases h : k0 = k
    · simp [dictInsert, h, List.lookup]
    · have hb : (k == k0) = false := beq_eq_false_iff_ne.mpr (Ne.symm h)
      simp [dictInsert, h, List.lookup, hb, ih]

theorem lookup_dictInsert_ne {β : Type} {k k0 : String} (h : k ≠ k0) (v : β)
    (l : List (String × β)) :
    (dictInsert k0 v l).lookup k = l.lookup k := by
  have hb : (k == k0) = false := beq_eq_false_iff_ne.mpr h
  induction l with
  | nil => simp [dictInsert, List.lookup, hb]
  | cons p rest ih =>
    obtain ⟨k1, v1⟩ := p
    by_cases h1 : k1 = k0
    · subst h1
      simp [dictInsert, List.lookup, hb]
    · have hstep : dictInsert k0 v ((k1, v1) :: rest) = (k1, v1) :: dictInsert k0 v rest := by
        simp [dictInsert, h1]
      rw [hstep]
      cases hb1 : (k == k1) <;> simp [List.lookup, hb1, ih]

theorem processExtras_lookup_not_mem (k : String) :
    ∀ (extras : List (String × PyVal)) (gen : List String)
      (flds : List (String × FieldEntry)),
      k ∉ extras.map Prod.fst →
      ((processExtras gen flds extras).1).lookup k = flds.lookup k := by
  intro extras
  induction extras with
  | nil => intro gen flds _; rfl
  | cons p rest ih =>
    intro gen flds h
    obtain ⟨k0, v⟩ := p
    simp only [List.map_cons, List.mem_cons, not_or] at h
    obtain ⟨hk, hrest⟩ := h
    simp only [processExtras]
    by_cases hf : (genContains (pyLower k0) gen).1
    · simp only [hf, if_true]
      exact ih _ _ hrest
    · simp only [hf, Bool.false_eq_true, if_false]
      cases v with
      | str s => rw [ih _ _ hrest, lookup_dictInsert_ne hk]
      | dict es =>
        by_cases hval : (es.lookup "value").isSome
        · simp only [hval, if_true]
          rw [ih _ _ hrest, lookup_dictInsert_ne hk]
        · simp only [hval, Bool.false_eq_true, if_false]
          exact ih _ _ hrest
      | int n => exact ih _ _ hrest
      | bool b => exact ih _ _ hrest
      | pynone => exact ih _ _ hrest

theorem processExtras_str_entry (k s : String) :
    ∀ (extras : List (String × PyVal)) (gen : List String)
      (flds : List (String × FieldEntry)),
      (k, PyVal.str s) ∈ extras →
      (extras.map Prod.fst).count k = 1 →
      pyLower k ∉ gen →
      ((processExtras gen flds extras).1).lookup k = some ⟨s, "False"⟩ := by
  intro extras
  induction extras with
  | nil => intro gen flds hmem _ _; simp at hmem
  | cons p rest ih =>
    intro gen flds hmem hcount hgen
    obtain ⟨k0, v⟩ := p
    rcases List.mem_cons.mp hmem with heq | hmem2
    · have hk : k = k0 := congrArg Prod.fst heq
      have hv : PyVal.str s = v := congrArg Prod.snd heq
      subst hk
      subst hv
      have hc0 : (rest.map Prod.fst).count k = 0 := by
        simp only [List.map_cons, List.count_cons, beq_self_eq_true, if_true] at hcount
        omega
      have hrest : k ∉ rest.map Prod.fst := List.count_eq_zero.mp hc0
      have hgc : genContains (pyLower k) gen = (false, []) := genContains_not_mem hgen
      simp only [processExtras, hgc, Bool.false_eq_true, if_false]
      rw [processExtras_lookup_not_mem k rest _ _ hrest, lookup_dictInsert_self]
    · have hkrest : k ∈ rest.map Prod.fst :=
        List.mem_map_of_mem Prod.fst hmem2
      have hk : k0 ≠ k := by
        intro e
        subst e
        have h1 : (rest.map Prod.fst).count k0 ≠ 0 :=
          fun h0 => (List.count_eq_zero.mp h0) hkrest
        simp only [List.map_cons, List.count_cons, beq_self_eq_true, if_true] at hcount
        omega
      have hcount2 : (rest.map Prod.fst).count k = 1 := by
        simp only [List.map_cons, List.count_cons] at hcount
        have hb : (k0 == k) = false := beq_eq_false_iff_ne.mpr hk
        rw [hb] at hcount
        simpa using hcount
      have hgen2 : pyLower k ∉ (genContains (pyLower k0) gen).2 :=
        fun hm => hgen (genContains_subset _ _ _ hm)
      simp only [processExtras]
      by_cases hf : (genContains (pyLower k0) gen).1
      · simp only [hf, if_true]
        exact ih _ _ hmem2 hcount2 hgen2
      · simp only [hf, Bool.false_eq_true, if_false]
        cases v with
        | str s0 => exact ih _ _ hmem2 hcount2 hgen2
        | dict es =>
          by_cases hval : (es.lookup "value").isSome
          · simp only [hval, if_true]
            exact ih _ _ hmem2 hcount2 hgen2
          · simp only [hval, Bool.false_eq_true, if_false]
            exact ih _ _ hmem2 hcount2 hgen2
        | int n => exact ih _ _ hmem2 hcount2 hgen2
        | bool b => exact ih _ _ hmem2 hcount2 hgen2
        | pynone => exact ih _ _ hmem2 hcount2 hgen2

/-- A part whose extra fields hold an integer scalar under a non colliding
name. -/
def c6_int_part : PartRecord :=
  { c1_part with fields := some [("Count", PyVal.int 5)] }

/-- C6 counterexample: the claim states that a bare scalar of any scalar
type is wrapped, but the loop only handles values that satisfy isinstance
str: the integer scalar 5 under the non colliding name Count is silently
dropped and the name is absent from the output, instead of mapping to the
entry with value 5 and visibility False. -/
theorem c6_int_scalar_dropped :
    ((part_to_kicad_fields FIXED_FIELD_NAMES c6_int_part).1.fields).lookup "Count"
      = Option.none := by
  decide

/-- C6 (amended): for every extra entry holding a bare string scalar whose
name occurs exactly once in the mapping and whose lowercased form is not
among the names the fixed-name generator can still yield, the output
fields map holds for that name the entry with the string as value and
visibility False; bare scalars of other types are dropped (see the
counterexample). -/
theorem c6_string_scalar_wrapped
    (gen : List String) (part : PartRecord) (extras : List (String × PyVal))
    (k s : String)
    (hf : part.fields = some extras)
    (hmem : (k, PyVal.str s) ∈ extras)
    (hcount : (extras.map Prod.fst).count k = 1)
    (hgen : pyLower k ∉ gen) :
    ((part_to_kicad_fields gen part).1.fields).lookup k = some ⟨s, "False"⟩ := by
  simp only [part_to_kicad_fields, hf, Option.getD_some]
  exact processExtras_str_entry k s extras gen _ hmem hcount hgen

/-- A part whose extra fields hold one string scalar. -/
def c6_str_part : PartRecord :=
  { c1_part with fields := some [("Manufacturer", PyVal.str "Murata")] }

/-- Witness for C6 at a concrete part, from the initial generator state. -/
theorem c6_string_scalar_wrapped_witness :
    ((part_to_kicad_fields FIXED_FIELD_NAMES c6_str_part).1.fields).lookup "Manufacturer"
      = some ⟨"Murata", "False"⟩ :=
  c6_string_scalar_wrapped FIXED_FIELD_NAMES c6_str_part
    [("Manufacturer", PyVal.str "Murata")] "Manufacturer" "Murata" rfl
    (List.mem_singleton.mpr rfl) (by decide) (by decide)

/-! Sorting lemmas shared by the schema synthesis claims. -/

theorem insertLeBy_perm {α : Type} (key : α → String) (x : α) (l : List α) :
    (insertLeBy key x l).Perm (x :: l) := by
  induction l with
  | nil => exact List.Perm.refl _
  | cons y ys ih =>
    simp only [insertLeBy]
    by_cases h : strLeB (key x) (key y)
    · simp only [h, if_true]
      exact List.Perm.refl _
    · simp only [h, Bool.false_eq_true, if_false]
      exact (ih.cons y).trans (List.Perm.swap x y ys)

theorem sortLeBy_perm {α : Type} (key : α → String) (l : List α) :
    (sortLeBy key l).Perm l := by
  induction l with
  | nil => exact List.Perm.refl _
  | cons x xs ih =>
    exact (insertLeBy_perm key x (sortLeBy key xs)).trans (ih.cons x)

theorem mem_sortLeBy {α : Type} {key : α → String} {x : α} {l : List α} :
    x ∈ sortLeBy key l ↔ x ∈ l :=
  (sortLeBy_perm key l).mem_iff

/-! Lemmas about the column produced for one attribute. -/

theorem column_from_spec_name (cls : KiCadTableDefinition) (n : String)
    (spec : KiCadDatabaseColumn) (c0 : SAColumn)
    (h : column_from_spec cls n spec = .ok c0) : c0.name = n := by
  cases spec with
  | field f =>
    simp only [column_from_spec] at h
    by_cases h1 : f.name = ""
    · simp [h1] at h
    · rw [if_neg h1] at h
      by_cases h2 : f.computed = ""
      · rw [if_pos h2] at h
        cases h
        rfl
      · rw [if_neg h2] at h
        cases hf : pyFormat cls.computed_vars f.computed with
        | error e => rw [hf] at h; cases h
        | ok s => rw [hf] at h; cases h; rfl
  | property p =>
    simp only [column_from_spec] at h
    by_cases h1 : (p.which = .EXCLUDE_FROM_BOM ∨ p.which = .EXCLUDE_FROM_BOARD
        ∨ p.which = .EXCLUDE_FROM_SIM)
    · rw [if_pos h1] at h; cases h; rfl
    · rw [if_neg h1] at h; cases h; rfl
  | column c =>
    simp only [column_from_spec] at h
    cases h
    rfl

theorem column_from_spec_primary_false (cls : KiCadTableDefinition) (n : String)
    (spec : KiCadDatabaseColumn) (c0 : SAColumn)
    (h : column_from_spec cls n spec = .ok c0)
    (hcol : ∀ cc, spec = KiCadDatabaseColumn.column cc → cc.primary_key = false) :
    c0.primary_key = false := by
  cases spec with
  | field f =>
    simp only [column_from_spec] at h
    by_cases h1 : f.name = ""
    · simp [h1] at h
    · rw [if_neg h1] at h
      by_cases h2 : f.computed = ""
      · rw [if_pos h2] at h
        cases h
        rfl
      · rw [if_neg h2] at h
        cases hf : pyFormat cls.computed_vars f.computed with
        | error e => rw [hf] at h; cases h
        | ok s => rw [hf] at h; cases h; rfl
  | property p =>
    simp only [column_from_spec] at h
    by_cases h1 : (p.which = .EXCLUDE_FROM_BOM ∨ p.which = .EXCLUDE_FROM_BOARD
        ∨ p.which = .EXCLUDE_FROM_SIM)
    · rw [if_pos h1] at h; cases h; rfl
    · rw [if_neg h1] at h; cases h; rfl
  | column c =>
    simp only [column_from_spec] at h
    cases h
    exact hcol c rfl

theorem gen_field_columns_names (cls : KiCadTableDefinition) :
    ∀ (fs : List (String × KiCadDatabaseColumn)) (cs : List SAColumn),
      gen_field_columns cls fs = .ok cs →
      cs.map SAColumn.name = fs.map Prod.fst := by
  intro fs
  induction fs with
  | nil =>
    intro cs h
    simp only [gen_field_columns] at h
    cases h
    rfl
  | cons p rest ih =>
    intro cs h
    obtain ⟨n, spec⟩ := p
    simp only [gen_field_columns] at h
    cases hspec : column_from_spec cls n spec with
    | error e => rw [hspec] at h; cases h
    | ok c0 =>
      rw [hspec] at h
      cases hrest : gen_field_columns cls rest with
      | error e => rw [hrest] at h; cases h
      | ok cs0 =>
        rw [hrest] at h
        cases h
        simp only [List.map_cons]
        rw [column_from_spec_name cls n spec c0 hspec, ih cs0 hrest]

theorem gen_field_columns_primary_false (cls : KiCadTableDefinition) :
    ∀ (fs : List (String × KiCadDatabaseColumn)) (cs : List SAColumn),
      gen_field_columns cls fs = .ok cs →
      (∀ p ∈ fs, ∀ cc, p.2 = KiCadDatabaseColumn.column cc → cc.primary_key = false) →
      ∀ col ∈ cs, col.primary_key = false := by
  intro fs
  induction fs with
  | nil =>
    intro cs h _ col hcol
    simp only [gen_field_columns] at h
    cases h
    simp at hcol
  | cons p rest ih =>
    intro cs h hplain col hcol
    obtain ⟨n, spec⟩ := p
    simp only [gen_field_columns] at h
    cases hspec : column_from_spec cls n spec with
    | error e => rw [hspec] at h; cases h
    | ok c0 =>
      rw [hspec] at h
      cases hrest : gen_field_columns cls rest with
      | error e => rw [hrest] at h; cases h
      | ok cs0 =>
        rw [hrest] at h
        cases h
        rcases List.mem_cons.mp hcol with rfl | hmem
        · exact column_from_spec_primary_false cls n spec col hspec
            (fun cc hc => hplain (n, spec) (List.mem_cons_self _ _) cc hc)
        · exact ih cs0 hrest
            (fun q hq cc hc => hplain q (List.mem_cons_of_mem _ hq) cc hc) col hmem

/-- A table definition whose key attribute name is occupied by a declared
KiCadField. -/
def c4_def : KiCadTableDefinition :=
  { table_name := "cap", attrs := [("key", .field { name := "Key" })] }

/-- C4 counterexample: when a declared KiCadField occupies the key
attribute name, the synthesized default key column is suppressed and the
field renders as a plain String column without the primary key flag, so
the produced column list holds zero primary key columns, not exactly one. -/
theorem c4_key_occupied_no_primary_key :
    (Except.toOption (generate_table_columns c4_def)).map
        (fun cols => ((cols.filter (fun c => c.primary_key)).map SAColumn.name))
      = some [] := by
  decide

/-- C4 (amended): when no declared attribute occupies the configured key
column name and no declared plain Column carries the primary key flag,
every successfully synthesized column list holds exactly one primary key
column, and it bears the configured key column name. When the key name is
occupied the primary key flag is whatever the occupying spec supplies, and
a NamedField there yields none (see the counterexample). -/
theorem c4_exactly_one_primary_key
    (D : KiCadTableDefinition) (cols : List SAColumn)
    (hkey : D.key_column_name ∉ D.attrs.map Prod.fst)
    (hplain : ∀ p ∈ D.attrs, ∀ cc, p.2 = KiCadDatabaseColumn.column cc →
        cc.primary_key = false)
    (hok : generate_table_columns D = .ok cols) :
    (cols.filter (fun c => c.primary_key)).map SAColumn.name = [D.key_column_name] := by
  simp only [generate_table_columns] at hok
  cases hg : gen_field_columns D (get_kicad_fields D) with
  | error e => rw [hg] at hok; cases hok
  | ok cs =>
    rw [hg] at hok
    cases hok
    have hkey2 : D.key_column_name ∉ (get_kicad_fields D).map Prod.fst := by
      intro hm
      obtain ⟨p, hp, he⟩ := List.mem_map.mp hm
      exact hkey (List.mem_map.mpr ⟨p, mem_sortLeBy.mp hp, he⟩)
    have hplain2 : ∀ p ∈ get_kicad_fields D, ∀ cc,
        p.2 = KiCadDatabaseColumn.column cc → cc.primary_key = false :=
      fun p hp => hplain p (mem_sortLeBy.mp hp)
    have hcs : cs.filter (fun c => c.primary_key) = [] := by
      rw [List.filter_eq_nil_iff]
      intro col hcol
      simp [gen_field_columns_primary_false D _ cs hg hplain2 col hcol]
    rw [List.filter_append, hcs, List.append_nil]
    by_cases hs : D.symbol_column_name ∈ (get_kicad_fields D).map Prod.fst
    · by_cases hf : D.footprint_column_name ∈ (get_kicad_fields D).map Prod.fst
      · simp [default_columns, hkey2, hs, hf]
      · simp [default_columns, hkey2, hs, hf]
    · by_cases hf : D.footprint_column_name ∈ (get_kicad_fields D).map Prod.fst
      · simp [default_columns, hkey2, hs, hf]
      · simp [default_columns, hkey2, hs, hf]

/-- A plain two attribute definition used to witness the amended C4. -/
def c4_good_def : KiCadTableDefinition :=
  { table_name := "resistor",
    attrs := [("mpn", .field { name := "MPN" }),
              ("bom", .property { which := .EXCLUDE_FROM_BOM })] }

/-- Witness for C4 at a concrete definition: the key column is the sole
primary key. -/
theorem c4_exactly_one_primary_key_witness :
    ∃ cols, generate_table_columns c4_good_def = Except.ok cols
      ∧ (cols.filter (fun c => c.primary_key)).map SAColumn.name
          = [c4_good_def.key_column_name] := by
  refine ⟨_, rfl, ?_⟩
  exact c4_exactly_one_primary_key c4_good_def _ (by decide)
    (by intro p hp cc hc
        fin_cases hp <;> simp_all)
    rfl

/-! Order properties of the string comparison. -/

theorem charsLe_cons_iff (a b : Char) (as bs : List Char) :
    charsLe (a :: as) (b :: bs) = true ↔
      a.toNat < b.toNat ∨ (a.toNat = b.toNat ∧ charsLe as bs = true) := by
  simp only [charsLe]
  split_ifs with h1 h2
  · simp [h1]
  · simp [h1, h2]
  · simp [h1, h2]

theorem charsLe_total : ∀ as bs : List Char, charsLe as bs = true ∨ charsLe bs as = true := by
  intro as
  induction as with
  | nil => intro bs; left; rfl
  | cons a as ih =>
    intro bs
    cases bs with
    | nil => right; rfl
    | cons b bs =>
      rcases Nat.lt_trichotomy a.toNat b.toNat with h | h | h
      · left; rw [charsLe_cons_iff]; exact Or.inl h
      · rcases ih bs with h2 | h2
        · left; rw [charsLe_cons_iff]; exact Or.inr ⟨h, h2⟩
        · right; rw [charsLe_cons_iff]; exact Or.inr ⟨h.symm, h2⟩
      · right; rw [charsLe_cons_iff]; exact Or.inl h

theorem charsLe_trans :
    ∀ as bs cs : List Char,
      charsLe as bs = true → charsLe bs cs = true → charsLe as cs = true := by
  intro as
  induction as with
  | nil => intro bs cs _ _; rfl
  | cons a as ih =>
    intro bs cs h1 h2
    cases bs with
    | nil => simp [charsLe] at h1
    | cons b bs =>
      cases cs with
      | nil => simp [charsLe] at h2
      | cons c cs =>
        rw [charsLe_cons_iff] at h1 h2 ⊢
        rcases h1 with h1 | ⟨h1e, h1r⟩
        · rcases h2 with h2 | ⟨h2e, _⟩
          · exact Or.inl (by omega)
          · exact Or.inl (by omega)
        · rcases h2 with h2 | ⟨h2e, h2r⟩
          · exact Or.inl (by omega)
          · exact Or.inr ⟨by omega, ih bs cs h1r h2r⟩

theorem strLeB_total (a b : String) : strLeB a b = true ∨ strLeB b a = true :=
  charsLe_total a.data b.data

theorem strLeB_trans (a b c : String)
    (h1 : strLeB a b = true) (h2 : strLeB b c = true) : strLeB a c = true :=
  charsLe_trans a.data b.data c.data h1 h2

theorem mem_insertLeBy {α : Type} {key : α → String} {x y : α} {l : List α} :
    y ∈ insertLeBy key x l ↔ y = x ∨ y ∈ l :=
  (insertLeBy_perm key x l).mem_iff.trans List.mem_cons

theorem pairwise_insertLeBy {α : Type} (key : α → String) (x : α) (l : List α)
    (h : l.Pairwise (fun a b => strLeB (key a) (key b) = true)) :
    (insertLeBy key x l).Pairwise (fun a b => strLeB (key a) (key b) = true) := by
  induction l with
  | nil => simp [insertLeBy]
  | cons y ys ih =>
    rcases List.pairwise_cons.mp h with ⟨hy, hys⟩
    simp only [insertLeBy]
    by_cases hc : strLeB (key x) (key y) = true
    · rw [if_pos hc]
      refine List.pairwise_cons.mpr ⟨?_, h⟩
      intro z hz
      rcases List.mem_cons.mp hz with rfl | hz2
      · exact hc
      · exact strLeB_trans _ _ _ hc (hy z hz2)
    · rw [if_neg hc]
      refine List.pairwise_cons.mpr ⟨?_, ih hys⟩
      intro z hz
      rcases mem_insertLeBy.mp hz with hzx | hz2
      · rcases strLeB_total (key x) (key y) with ht | ht
        · exact absurd ht hc
        · rw [hzx]
          exact ht
      · exact hy z hz2

theorem pairwise_sortLeBy {α : Type} (key : α → String) (l : List α) :
    (sortLeBy key l).Pairwise (fun a b => strLeB (key a) (key b) = true) := by
  induction l with
  | nil => simp [sortLeBy]
  | cons x xs ih => exact pairwise_insertLeBy key x _ ih

/-- A definition declaring attribute b before attribute a. -/
def c5_def : KiCadTableDefinition :=
  { table_name := "t",
    attrs := [("b", .field { name := "B" }), ("a", .field { name := "A" })] }

/-- C5 counterexample: the attributes are declared in the order b, a but
the synthesized columns after the identity columns come out as a, b,
because the source enumerates attributes with dir, which sorts names
ascending; declaration order is not preserved. -/
theorem c5_declaration_order_not_preserved :
    (Except.toOption (generate_table_columns c5_def)).map (List.map SAColumn.name)
        = some ["key", "symbol", "footprint", "a", "b"]
    ∧ c5_def.attrs.map Prod.fst = ["b", "a"] := by
  exact ⟨by decide, by decide⟩

/-- C5 (amended): the columns emitted after the synthesized identity
columns are the declared attributes in ascending lexicographic order of
attribute name (the order dir produces), not declaration order: their name
list equals the sorted attribute enumeration, is a permutation of the
declared attribute names, and is pairwise nondecreasing. -/
theorem c5_columns_sorted_by_attribute_name
    (D : KiCadTableDefinition) (cols : List SAColumn)
    (hok : generate_table_columns D = .ok cols) :
    ((cols.drop (default_columns D (get_kicad_fields D)).length).map SAColumn.name
        = (get_kicad_fields D).map Prod.fst)
    ∧ ((cols.drop (default_columns D (get_kicad_fields D)).length).map SAColumn.name).Perm
        (D.attrs.map Prod.fst)
    ∧ ((cols.drop (default_columns D (get_kicad_fields D)).length).map
          SAColumn.name).Pairwise (fun a b => strLeB a b = true) := by
  simp only [generate_table_columns] at hok
  cases hg : gen_field_columns D (get_kicad_fields D) with
  | error e => rw [hg] at hok; cases hok
  | ok cs =>
    rw [hg] at hok
    cases hok
    rw [List.drop_left]
    have hnames : cs.map SAColumn.name = (get_kicad_fields D).map Prod.fst :=
      gen_field_columns_names D _ cs hg
    refine ⟨hnames, ?_, ?_⟩
    · rw [hnames]
      exact (sortLeBy_perm Prod.fst D.attrs).map Prod.fst
    · rw [hnames]
      exact List.pairwise_map.mpr (pairwise_sortLeBy Prod.fst D.attrs)

/-- Witness for C5 at the concrete two attribute definition. -/
theorem c5_columns_sorted_by_attribute_name_witness :
    ∃ cols, generate_table_columns c5_def = Except.ok cols
      ∧ (((cols.drop (default_columns c5_def (get_kicad_fields c5_def)).length).map
              SAColumn.name = (get_kicad_fields c5_def).map Prod.fst)
         ∧ ((cols.drop (default_columns c5_def (get_kicad_fields c5_def)).length).map
              SAColumn.name).Perm (c5_def.attrs.map Prod.fst)
         ∧ ((cols.drop (default_columns c5_def (get_kicad_fields c5_def)).length).map
              SAColumn.name).Pairwise (fun a b => strLeB a b = true)) :=
  ⟨_, rfl, c5_columns_sorted_by_attribute_name c5_def _ rfl⟩

/-! Lemmas about the format machine, relating substitution to the set of
referenced variables. -/

theorem fmtVarsRun_acc_subset :
    ∀ (cs : List Char) (st : FmtState) (acc vs : List String),
      fmtVarsRun st acc cs = some vs → ∀ a ∈ acc, a ∈ vs := by
  intro cs
  induction cs with
  | nil =>
    intro st acc vs h a ha
    cases st with
    | normal => simp only [fmtVarsRun] at h; cases h; exact ha
    | openSeen => simp only [fmtVarsRun] at h; cases h
    | closeSeen => simp only [fmtVarsRun] at h; cases h
    | inVar nm => simp only [fmtVarsRun] at h; cases h
  | cons c cs ih =>
    intro st acc vs h a ha
    cases st with
    | normal =>
      simp only [fmtVarsRun] at h
      by_cases h1 : c = braceOpen
      · rw [if_pos h1] at h; exact ih _ _ _ h a ha
      · rw [if_neg h1] at h
        by_cases h2 : c = braceClose
        · rw [if_pos h2] at h; exact ih _ _ _ h a ha
        · rw [if_neg h2] at h; exact ih _ _ _ h a ha
    | openSeen =>
      simp only [fmtVarsRun] at h
      by_cases h1 : c = braceOpen
      · rw [if_pos h1] at h; exact ih _ _ _ h a ha
      · rw [if_neg h1] at h
        by_cases h2 : c = braceClose
        · rw [if_pos h2] at h
          exact ih _ _ _ h a (List.mem_append_left _ ha)
        · rw [if_neg h2] at h; exact ih _ _ _ h a ha
    | closeSeen =>
      simp only [fmtVarsRun] at h
      by_cases h2 : c = braceClose
      · rw [if_pos h2] at h; exact ih _ _ _ h a ha
      · rw [if_neg h2] at h; cases h
    | inVar nm =>
      simp only [fmtVarsRun] at h
      by_cases h1 : c = braceClose
      · rw [if_pos h1] at h
        exact ih _ _ _ h a (List.mem_append_left _ ha)
      · rw [if_neg h1] at h
        by_cases h2 : c = braceOpen
        · rw [if_pos h2] at h; cases h
        · rw [if_neg h2] at h; exact ih _ _ _ h a ha

theorem fmtRun_ok_vars_bound (vars : List (String × String)) :
    ∀ (cs : List Char) (st : FmtState) (out r : String) (acc vs : List String),
      fmtRun vars st out cs = .ok r →
      fmtVarsRun st acc cs = some vs →
      ∀ v ∈ vs, v ∈ acc ∨ (vars.lookup v).isSome := by
  intro cs
  induction cs with
  | nil =>
    intro st out r acc vs hr hv v hmem
    cases st with
    | normal => simp only [fmtVarsRun] at hv; cases hv; exact Or.inl hmem
    | openSeen => simp only [fmtVarsRun] at hv; cases hv
    | closeSeen => simp only [fmtVarsRun] at hv; cases hv
    | inVar nm => simp only [fmtVarsRun] at hv; cases hv
  | cons c cs ih =>
    intro st out r acc vs hr hv v hmem
    cases st with
    | normal =>
      simp only [fmtRun] at hr
      simp only [fmtVarsRun] at hv
      by_cases h1 : c = braceOpen
      · rw [if_pos h1] at hr hv; exact ih _ _ _ _ _ hr hv v hmem
      · rw [if_neg h1] at hr hv
        by_cases h2 : c = braceClose
        · rw [if_pos h2] at hr hv; exact ih _ _ _ _ _ hr hv v hmem
        · rw [if_neg h2] at hr hv; exact ih _ _ _ _ _ hr hv v hmem
    | openSeen =>
      simp only [fmtRun] at hr
      simp only [fmtVarsRun] at hv
      by_cases h1 : c = braceOpen
      · rw [if_pos h1] at hr hv; exact ih _ _ _ _ _ hr hv v hmem
      · rw [if_neg h1] at hr hv
        by_cases h2 : c = braceClose
        · rw [if_pos h2] at hr hv
          cases hl : vars.lookup "" with
          | none => rw [hl] at hr; cases hr
          | some w =>
            rw [hl] at hr
            rcases ih _ _ _ _ _ hr hv v hmem with hin | hb
            · rcases List.mem_append.mp hin with ha | hone
              · exact Or.inl ha
              · refine Or.inr ?_
                rw [List.mem_singleton.mp hone, hl]
                rfl
            · exact Or.inr hb
        · rw [if_neg h2] at hr hv; exact ih _ _ _ _ _ hr hv v hmem
    | closeSeen =>
      simp only [fmtRun] at hr
      simp only [fmtVarsRun] at hv
      by_cases h2 : c = braceClose
      · rw [if_pos h2] at hr hv; exact ih _ _ _ _ _ hr hv v hmem
      · rw [if_neg h2] at hv; cases hv
    | inVar nm =>
      simp only [fmtRun] at hr
      simp only [fmtVarsRun] at hv
      by_cases h1 : c = braceClose
      · rw [if_pos h1] at hr hv
        cases hl : vars.lookup (String.mk nm) with
        | none => rw [hl] at hr; cases hr
        | some w =>
          rw [hl] at hr
          rcases ih _ _ _ _ _ hr hv v hmem with hin | hb
          · rcases List.mem_append.mp hin with ha | hone
            · exact Or.inl ha
            · refine Or.inr ?_
              rw [List.mem_singleton.mp hone, hl]
              rfl
          · exact Or.inr hb
      · rw [if_neg h1] at hr hv
        by_cases h2 : c = braceOpen
        · rw [if_pos h2] at hv; cases hv
        · rw [if_neg h2] at hr hv; exact ih _ _ _ _ _ hr hv v hmem

theorem fmtRun_error_unbound (vars : List (String × String)) :
    ∀ (cs : List Char) (st : FmtState) (out : String) (e : String)
      (acc vs : List String),
      fmtRun vars st out cs = .error e →
      fmtVarsRun st acc cs = some vs →
      e ∈ vs ∧ vars.lookup e = Option.none := by
  intro cs
  induction cs with
  | nil =>
    intro st out e acc vs hr hv
    cases st with
    | normal => simp only [fmtRun] at hr; cases hr
    | openSeen => simp only [fmtVarsRun] at hv; cases hv
    | closeSeen => simp only [fmtVarsRun] at hv; cases hv
    | inVar nm => simp only [fmtVarsRun] at hv; cases hv
  | cons c cs ih =>
    intro st out e acc vs hr hv
    cases st with
    | normal =>
      simp only [fmtRun] at hr
      simp only [fmtVarsRun] at hv
      by_cases h1 : c = braceOpen
      · rw [if_pos h1] at hr hv; exact ih _ _ _ _ _ hr hv
      · rw [if_neg h1] at hr hv
        by_cases h2 : c = braceClose
        · rw [if_pos h2] at hr hv; exact ih _ _ _ _ _ hr hv
        · rw [if_neg h2] at hr hv; exact ih _ _ _ _ _ hr hv
    | openSeen =>
      simp only [fmtRun] at hr
      simp only [fmtVarsRun] at hv
      by_cases h1 : c = braceOpen
      · rw [if_pos h1] at hr hv; exact ih _ _ _ _ _ hr hv
      · rw [if_neg h1] at hr hv
        by_cases h2 : c = braceClose
        · rw [if_pos h2] at hr hv
          cases hl : vars.lookup "" with
          | none =>
            rw [hl] at hr
            cases hr
            exact ⟨fmtVarsRun_acc_subset _ _ _ _ hv ""
              (List.mem_append_right _ (List.mem_singleton.mpr rfl)), hl⟩
          | some w =>
            rw [hl] at hr
            exact ih _ _ _ _ _ hr hv
        · rw [if_neg h2] at hr hv; exact ih _ _ _ _ _ hr hv
    | closeSeen =>
      simp only [fmtRun] at hr
      simp only [fmtVarsRun] at hv
      by_cases h2 : c = braceClose
      · rw [if_pos h2] at hr hv; exact ih _ _ _ _ _ hr hv
      · rw [if_neg h2] at hv; cases hv
    | inVar nm =>
      simp only [fmtRun] at hr
      simp only [fmtVarsRun] at hv
      by_cases h1 : c = braceClose
      · rw [if_pos h1] at hr hv
        cases hl : vars.lookup (String.mk nm) with
        | none =>
          rw [hl] at hr
          cases hr
          exact ⟨fmtVarsRun_acc_subset _ _ _ _ hv (String.mk nm)
            (List.mem_append_right _ (List.mem_singleton.mpr rfl)), hl⟩
        | some w =>
          rw [hl] at hr
          exact ih _ _ _ _ _ hr hv
      · rw [if_neg h1] at hr hv
        by_cases h2 : c = braceOpen
        · rw [if_pos h2] at hv; cases hv
        · rw [if_neg h2] at hr hv; exact ih _ _ _ _ _ hr hv

theorem fmtRun_ok_of_bound (vars : List (String × String)) :
    ∀ (cs : List Char) (st : FmtState) (out : String) (acc vs : List String),
      fmtVarsRun st acc cs = some vs →
      (∀ v ∈ vs, (vars.lookup v).isSome) →
      ∃ r, fmtRun vars st out cs = .ok r := by
  intro cs
  induction cs with
  | nil =>
    intro st out acc vs hv hb
    cases st with
    | normal => exact ⟨out, rfl⟩
    | openSeen => simp only [fmtVarsRun] at hv; cases hv
    | closeSeen => simp only [fmtVarsRun] at hv; cases hv
    | inVar nm => simp only [fmtVarsRun] at hv; cases hv
  | cons c cs ih =>
    intro st out acc vs hv hb
    cases st with
    | normal =>
      simp only [fmtVarsRun] at hv
      simp only [fmtRun]
      by_cases h1 : c = braceOpen
      · rw [if_pos h1] at hv ⊢; exact ih _ _ _ _ hv hb
      · rw [if_neg h1] at hv ⊢
        by_cases h2 : c = braceClose
        · rw [if_pos h2] at hv ⊢; exact ih _ _ _ _ hv hb
        · rw [if_neg h2] at hv ⊢; exact ih _ _ _ _ hv hb
    | openSeen =>
      simp only [fmtVarsRun] at hv
      simp only [fmtRun]
      by_cases h1 : c = braceOpen
      · rw [if_pos h1] at hv ⊢; exact ih _ _ _ _ hv hb
      · rw [if_neg h1] at hv ⊢
        by_cases h2 : c = braceClose
        · rw [if_pos h2] at hv ⊢
          have hmem : "" ∈ vs := fmtVarsRun_acc_subset _ _ _ _ hv ""
            (List.mem_append_right _ (List.mem_singleton.mpr rfl))
          cases hl : vars.lookup "" with
          | none => exact absurd (hb "" hmem) (by simp [hl])
          | some w => exact ih _ _ _ _ hv hb
        · rw [if_neg h2] at hv ⊢; exact ih _ _ _ _ hv hb
    | closeSeen =>
      simp only [fmtVarsRun] at hv
      simp only [fmtRun]
      by_cases h2 : c = braceClose
      · rw [if_pos h2] at hv ⊢; exact ih _ _ _ _ hv hb
      · rw [if_neg h2] at hv; cases hv
    | inVar nm =>
      simp only [fmtVarsRun] at hv
      simp only [fmtRun]
      by_cases h1 : c = braceClose
      · rw [if_pos h1] at hv ⊢
        have hmem : String.mk nm ∈ vs := fmtVarsRun_acc_subset _ _ _ _ hv (String.mk nm)
          (List.mem_append_right _ (List.mem_singleton.mpr rfl))
        cases hl : vars.lookup (String.mk nm) with
        | none => exact absurd (hb (String.mk nm) hmem) (by simp [hl])
        | some w => exact ih _ _ _ _ hv hb
      · rw [if_neg h1] at hv ⊢
        by_cases h2 : c = braceOpen
        · rw [if_pos h2] at hv; cases hv
        · rw [if_neg h2] at hv ⊢; exact ih _ _ _ _ hv hb

theorem pyFormat_error_of_unbound (vars : List (String × String)) (s : String)
    (vs : List String) (v : String)
    (hvs : fmtVars s = some vs) (hv : v ∈ vs)
    (hnb : vars.lookup v = Option.none) :
    ∃ e, pyFormat vars s = .error e ∧ e ∈ vs ∧ vars.lookup e = Option.none := by
  cases hp : pyFormat vars s with
  | ok r =>
    rcases fmtRun_ok_vars_bound vars s.data .normal "" r [] vs hp hvs v hv with h | h
    · simp at h
    · rw [hnb] at h; simp at h
  | error e =>
    exact ⟨e, rfl, fmtRun_error_unbound vars s.data .normal "" e [] vs hp hvs⟩

theorem pyFormat_ok_of_bound (vars : List (String × String)) (s : String)
    (vs : List String) (hvs : fmtVars s = some vs)
    (hb : ∀ v ∈ vs, (vars.lookup v).isSome) :
    ∃ r, pyFormat vars s = .ok r :=
  fmtRun_ok_of_bound vars s.data .normal "" [] vs hvs hb

/-! Lemmas lifting format success and failure through the synthesis loop. -/

theorem column_from_spec_field_computed (cls : KiCadTableDefinition) (n : String)
    (f : KiCadField) (s : String)
    (hn : f.name ≠ "") (hc : f.computed ≠ "")
    (hfmt : pyFormat cls.computed_vars f.computed = .ok s) :
    column_from_spec cls n (.field f)
      = .ok { name := n, type := ColType.string, comment := f.description,
              server_default := some s } := by
  simp only [column_from_spec, if_neg hn, if_neg hc, hfmt]

theorem column_from_spec_field_error (cls : KiCadTableDefinition) (n : String)
    (f : KiCadField) (e : String)
    (hn : f.name ≠ "") (hc : f.computed ≠ "")
    (hfmt : pyFormat cls.computed_vars f.computed = .error e) :
    column_from_spec cls n (.field f) = .error e := by
  simp only [column_from_spec, if_neg hn, if_neg hc, hfmt]

theorem column_from_spec_error_anatomy (cls : KiCadTableDefinition) (n : String)
    (spec : KiCadDatabaseColumn) (e : String)
    (h : column_from_spec cls n spec = .error e)
    (hname : ∀ f, spec = KiCadDatabaseColumn.field f → f.name ≠ "") :
    ∃ f, spec = KiCadDatabaseColumn.field f ∧ f.computed ≠ ""
      ∧ pyFormat cls.computed_vars f.computed = .error e := by
  cases spec with
  | field f =>
    simp only [column_from_spec, if_neg (hname f rfl)] at h
    by_cases h2 : f.computed = ""
    · rw [if_pos h2] at h; cases h
    · rw [if_neg h2] at h
      cases hf : pyFormat cls.computed_vars f.computed with
      | error e0 => rw [hf] at h; cases h; exact ⟨f, rfl, h2, hf⟩
      | ok s => rw [hf] at h; cases h
  | property p =>
    simp only [column_from_spec] at h
    by_cases h1 : (p.which = .EXCLUDE_FROM_BOM ∨ p.which = .EXCLUDE_FROM_BOARD
        ∨ p.which = .EXCLUDE_FROM_SIM)
    · rw [if_pos h1] at h; cases h
    · rw [if_neg h1] at h; cases h
  | column c =>
    simp only [column_from_spec] at h
    cases h

theorem column_from_spec_ok_of_wf (cls : KiCadTableDefinition) (n : String)
    (spec : KiCadDatabaseColumn)
    (hname : ∀ f, spec = KiCadDatabaseColumn.field f → f.name ≠ "")
    (hfmt : ∀ f, spec = KiCadDatabaseColumn.field f → f.computed ≠ "" →
        ∃ r, pyFormat cls.computed_vars f.computed = .ok r) :
    ∃ c, column_from_spec cls n spec = .ok c := by
  cases spec with
  | field f =>
    by_cases h2 : f.computed = ""
    · refine ⟨{ name := n, type := ColType.string, comment := f.description,
                server_default := f.other_column_options.server_default }, ?_⟩
      simp only [column_from_spec, if_neg (hname f rfl), if_pos h2]
    · obtain ⟨r, hr⟩ := hfmt f rfl h2
      exact ⟨_, column_from_spec_field_computed cls n f r (hname f rfl) h2 hr⟩
  | property p =>
    by_cases h1 : (p.which = .EXCLUDE_FROM_BOM ∨ p.which = .EXCLUDE_FROM_BOARD
        ∨ p.which = .EXCLUDE_FROM_SIM)
    · refine ⟨{ name := n, type := ColType.boolean, comment := p.description }, ?_⟩
      simp only [column_from_spec, if_pos h1]
    · refine ⟨{ name := n, type := ColType.string, comment := p.description }, ?_⟩
      simp only [column_from_spec, if_neg h1]
  | column c => exact ⟨_, rfl⟩

theorem gen_field_columns_ok (cls : KiCadTableDefinition) :
    ∀ fs : List (String × KiCadDatabaseColumn),
      (∀ p ∈ fs, ∃ c, column_from_spec cls p.1 p.2 = .ok c) →
      ∃ cs, gen_field_columns cls fs = .ok cs := by
  intro fs
  induction fs with
  | nil => intro _; exact ⟨[], rfl⟩
  | cons p rest ih =>
    intro h
    obtain ⟨n, spec⟩ := p
    obtain ⟨c, hc⟩ := h (n, spec) (List.mem_cons_self _ _)
    obtain ⟨cs, hcs⟩ := ih (fun q hq => h q (List.mem_cons_of_mem _ hq))
    exact ⟨c :: cs, by simp only [gen_field_columns, hc, hcs]⟩

theorem gen_field_columns_mem (cls : KiCadTableDefinition) :
    ∀ (fs : List (String × KiCadDatabaseColumn)) (cs : List SAColumn),
      gen_field_columns cls fs = .ok cs →
      ∀ p ∈ fs, ∃ c, column_from_spec cls p.1 p.2 = .ok c ∧ c ∈ cs := by
  intro fs
  induction fs with
  | nil => intro cs _ p hp; simp at hp
  | cons q rest ih =>
    intro cs h p hp
    obtain ⟨n, spec⟩ := q
    simp only [gen_field_columns] at h
    cases hspec : column_from_spec cls n spec with
    | error e => rw [hspec] at h; cases h
    | ok c0 =>
      rw [hspec] at h
      cases hrest : gen_field_columns cls rest with
      | error e => rw [hrest] at h; cases h
      | ok cs0 =>
        rw [hrest] at h
        cases h
        rcases List.mem_cons.mp hp with heq | hmem
        · exact ⟨c0, heq ▸ hspec, List.mem_cons_self _ _⟩
        · obtain ⟨c, hcs, hcm⟩ := ih cs0 hrest p hmem
          exact ⟨c, hcs, List.mem_cons_of_mem _ hcm⟩

theorem gen_field_columns_error (cls : KiCadTableDefinition) :
    ∀ fs : List (String × KiCadDatabaseColumn),
      (∃ p ∈ fs, ∃ e0, column_from_spec cls p.1 p.2 = .error e0) →
      ∃ e, gen_field_columns cls fs = .error e
        ∧ ∃ q ∈ fs, column_from_spec cls q.1 q.2 = .error e := by
  intro fs
  induction fs with
  | nil => intro h; obtain ⟨p, hp, _⟩ := h; simp at hp
  | cons p rest ih =>
    intro h
    obtain ⟨n, spec⟩ := p
    cases hspec : column_from_spec cls n spec with
    | error e =>
      exact ⟨e, by simp only [gen_field_columns, hspec],
        ⟨(n, spec), List.mem_cons_self _ _, hspec⟩⟩
    | ok c0 =>
      obtain ⟨q, hq, e0, he0⟩ := h
      rcases List.mem_cons.mp hq with heq | hmem
      · rw [heq] at he0
        rw [he0] at hspec
        cases hspec
      · obtain ⟨e, herr, q2, hq2, he2⟩ := ih ⟨q, hmem, e0, he0⟩
        refine ⟨e, ?_, q2, List.mem_cons_of_mem _ hq2, he2⟩
        simp only [gen_field_columns, hspec, herr]

/-- C7: schema synthesis (generate_table_columns) itself reports the
failure, so it surfaces when the table is built, not when rows are
inserted or requests served. First part: for every definition whose
declared fields all carry names and well formed computed expressions, if
some field references a variable that is unbound in the computed variable
mapping, synthesis returns an error, and that error is the name of a
referenced variable that is unbound. Second part: when every referenced
variable of every computed expression is bound, synthesis succeeds and,
for each computed field, the substituted expression is installed as the
server side default of the emitted column. -/
theorem c7_unbound_variable_definition_error :
    (∀ (D : KiCadTableDefinition) (n : String) (f : KiCadField)
        (vs : List String) (v : String),
        (∀ p ∈ D.attrs, ∀ g : KiCadField,
            p.2 = KiCadDatabaseColumn.field g → g.name ≠ "") →
        (∀ p ∈ D.attrs, ∀ g : KiCadField, p.2 = KiCadDatabaseColumn.field g →
            g.computed ≠ "" → ∃ ws, fmtVars g.computed = some ws) →
        (n, KiCadDatabaseColumn.field f) ∈ D.attrs →
        f.computed ≠ "" →
        fmtVars f.computed = some vs →
        v ∈ vs →
        D.computed_vars.lookup v = Option.none →
        ∃ e, generate_table_columns D = .error e
          ∧ ∃ (n2 : String) (f2 : KiCadField) (ws : List String),
              (n2, KiCadDatabaseColumn.field f2) ∈ D.attrs
              ∧ fmtVars f2.computed = some ws
              ∧ e ∈ ws ∧ D.computed_vars.lookup e = Option.none)
    ∧ (∀ D : KiCadTableDefinition,
        (∀ p ∈ D.attrs, ∀ g : KiCadField,
            p.2 = KiCadDatabaseColumn.field g → g.name ≠ "") →
        (∀ p ∈ D.attrs, ∀ g : KiCadField, p.2 = KiCadDatabaseColumn.field g →
            g.computed ≠ "" → ∃ ws, fmtVars g.computed = some ws
              ∧ ∀ w ∈ ws, (D.computed_vars.lookup w).isSome) →
        ∃ cols, generate_table_columns D = .ok cols
          ∧ ∀ p ∈ D.attrs, ∀ g : KiCadField, p.2 = KiCadDatabaseColumn.field g →
              g.computed ≠ "" →
              ∃ s, pyFormat D.computed_vars g.computed = .ok s
                ∧ ({ name := p.1, type := ColType.string, comment := g.description,
                     server_default := some s } : SAColumn) ∈ cols) := by
  constructor
  · intro D n f vs v hname hwf hmem hcomp hvs hv hnb
    obtain ⟨e0, he0, _, _⟩ :=
      pyFormat_error_of_unbound D.computed_vars f.computed vs v hvs hv hnb
    have hspecerr : column_from_spec D n (.field f) = .error e0 :=
      column_from_spec_field_error D n f e0 (hname (n, .field f) hmem f rfl) hcomp he0
    obtain ⟨e, herr, q, hq, he⟩ :=
      gen_field_columns_error D (get_kicad_fields D)
        ⟨(n, .field f), mem_sortLeBy.mpr hmem, e0, hspecerr⟩
    have hout : generate_table_columns D = .error e := by
      simp only [generate_table_columns, herr]
    obtain ⟨n2, spec2⟩ := q
    have hq2 : (n2, spec2) ∈ D.attrs := mem_sortLeBy.mp hq
    obtain ⟨f2, hf2, hc2, hfmt2⟩ :=
      column_from_spec_error_anatomy D n2 spec2 e he
        (fun g hg => hname (n2, spec2) hq2 g hg)
    obtain ⟨ws, hws⟩ := hwf (n2, spec2) hq2 f2 hf2 hc2
    obtain ⟨hein, helk⟩ :=
      fmtRun_error_unbound D.computed_vars f2.computed.data .normal "" e [] ws hfmt2 hws
    exact ⟨e, hout, n2, f2, ws, hf2 ▸ hq2, hws, hein, helk⟩
  · intro D hname hwf
    have hall : ∀ p ∈ get_kicad_fields D, ∃ c, column_from_spec D p.1 p.2 = .ok c := by
      intro p hp
      refine column_from_spec_ok_of_wf D p.1 p.2
        (fun g hg => hname p (mem_sortLeBy.mp hp) g hg) ?_
      intro g hg hcne
      obtain ⟨ws, hws, hb⟩ := hwf p (mem_sortLeBy.mp hp) g hg hcne
      exact pyFormat_ok_of_bound _ _ ws hws hb
    obtain ⟨cs, hcs⟩ := gen_field_columns_ok D _ hall
    refine ⟨default_columns D (get_kicad_fields D) ++ cs, ?_, ?_⟩
    · simp only [generate_table_columns, hcs]
    · intro p hp g hg hcne
      obtain ⟨ws, hws, hb⟩ := hwf p hp g hg hcne
      obtain ⟨s, hs⟩ := pyFormat_ok_of_bound D.computed_vars g.computed ws hws hb
      obtain ⟨c, hcok, hcmem⟩ :=
        gen_field_columns_mem D _ cs hcs p (mem_sortLeBy.mpr hp)
      rw [hg, column_from_spec_field_computed D p.1 g s
        (hname p hp g hg) hcne hs] at hcok
      cases hcok
      exact ⟨s, hs, List.mem_append_right _ hcmem⟩

/-- The computed field shared by the C7 witness definitions. -/
def c7_field : KiCadField := { name := "Part Number", computed := "{pfx}-{seq}" }

/-- A definition whose computed expression references the unbound
variable seq. -/
def c7_bad_def : KiCadTableDefinition :=
  { table_name := "resistor", computed_vars := [("pfx", "RES")],
    attrs := [("partnum", .field c7_field)] }

/-- The same definition with both referenced variables bound. -/
def c7_good_def : KiCadTableDefinition :=
  { c7_bad_def with computed_vars := [("pfx", "RES"), ("seq", "001")] }

/-- Witness for C7: the unbound definition fails naming a missing
variable, the bound one succeeds with the substitution installed. -/
theorem c7_unbound_variable_definition_error_witness :
    (∃ e, generate_table_columns c7_bad_def = .error e
       ∧ ∃ (n2 : String) (f2 : KiCadField) (ws : List String),
           (n2, KiCadDatabaseColumn.field f2) ∈ c7_bad_def.attrs
           ∧ fmtVars f2.computed = some ws
           ∧ e ∈ ws ∧ c7_bad_def.computed_vars.lookup e = Option.none)
    ∧ (∃ cols, generate_table_columns c7_good_def = .ok cols
        ∧ ∀ p ∈ c7_good_def.attrs, ∀ g : KiCadField,
            p.2 = KiCadDatabaseColumn.field g → g.computed ≠ "" →
            ∃ s, pyFormat c7_good_def.computed_vars g.computed = .ok s
              ∧ ({ name := p.1, type := ColType.string, comment := g.description,
                   server_default := some s } : SAColumn) ∈ cols) :=
  ⟨c7_unbound_variable_definition_error.1 c7_bad_def "partnum" c7_field
      ["pfx", "seq"] "seq"
      (by intro p hp g hg
          fin_cases hp
          cases hg
          decide)
      (by intro p hp g hg hc
          fin_cases hp
          cases hg
          exact ⟨["pfx", "seq"], by decide⟩)
      (List.mem_singleton.mpr rfl) (by decide) (by decide) (by decide) (by decide),
   c7_unbound_variable_definition_error.2 c7_good_def
      (by intro p hp g hg
          fin_cases hp
          cases hg
          decide)
      (by intro p hp g hg hc
          fin_cases hp
          cases hg
          exact ⟨["pfx", "seq"], by decide, by decide⟩)⟩
